import Mathlib

/-!
Verification of the pyCA ingest subsystem (`pyca/ingest.py`).

The Python module is shallowly embedded: pure helpers become Lean functions
on `String`, and the effectful functions (`ingest`, `safe_start_ingest`,
`control_loop`) become functions that return the ordered list of observable
effects (status updates, notifications, HTTP requests, directory removal,
sleeps) together with an `Except` outcome standing for "returned normally /
raised an exception".  External collaborators (the HTTP transport, the
service registry, the random generator, the database and the XML library)
are supplied through explicit oracle records, and each remote interaction is
recorded as an effect.

Python string operations are re-implemented structurally over `List Char`
(`splitChar`, `splitFirst`, ...) so that every definition evaluates inside
the kernel; their semantics follows `str.split`, `str.startswith`,
`in`, `str.encode('ascii', 'ignore')` and friends exactly, including the
corner cases (full splits keep empty pieces, `split(sep, 1)` splits at the
first separator only, a missing separator yields a single piece).
-/

/-- Python exceptions that the embedded code can raise.  `valueError` is the
unpacking error of `key, val = prop.split('=', 1)` on a line without `=`;
`emptyRange` is the `ValueError` of `random.randrange(0, 0)` on an empty
service list; `unboundLocal` is the `UnboundLocalError` of reading
`workflow_def` when no agent-properties attachment was processed;
`httpError` and `parseError` stand for failures of the HTTP transport and of
`ElementTree.fromstring`, chosen freely by the oracles. -/
inductive PyError where
  | valueError
  | emptyRange
  | unboundLocal
  | httpError
  | parseError
deriving DecidableEq, Repr

deriving instance DecidableEq for Except

/-- Python `s.split(c)` on a single-character separator: full split, empty
pieces kept, `[""]` on the empty string. -/
def splitChar (c : Char) : List Char → List (List Char)
  | [] => [[]]
  | x :: xs =>
    let r := splitChar c xs
    if x = c then [] :: r
    else
      match r with
      | [] => [[x]]
      | y :: ys => (x :: y) :: ys

/-- Python `s.split(c, 1)`: split at the first occurrence only; a missing
separator yields the one-element list `[s]`. -/
def splitFirst (c : Char) : List Char → List (List Char)
  | [] => [[]]
  | x :: xs =>
    if x = c then [[], xs]
    else
      match splitFirst c xs with
      | [] => [[x]]
      | y :: ys => (x :: y) :: ys

/-- Python `s.startswith(pre)`. -/
def strStarts (s pre : String) : Bool := pre.toList.isPrefixOf s.toList

/-- Substring test on character lists (`sub in s` for Python strings). -/
def listInfixOf (sub : List Char) : List Char → Bool
  | [] => sub.isEmpty
  | x :: xs => sub.isPrefixOf (x :: xs) || listInfixOf sub xs

/-- Python `sub in s`. -/
def strContainsSub (sub s : String) : Bool := listInfixOf sub.toList s.toList

/-- Python `s.encode('ascii', 'ignore')`: every character with a code point
outside 7-bit ASCII is silently dropped. -/
def asciiIgnore (s : String) : String :=
  String.mk (s.toList.filter (fun c => c.toNat < 128))

/-- Python `properties.split('\n')`. -/
def pyLines (s : String) : List String :=
  (splitChar (Char.ofNat 10) s.toList).map String.mk

/-- Python `prop.split('=', 1)`. -/
def pySplitEq1 (s : String) : List String :=
  (splitFirst (Char.ofNat 61) s.toList).map String.mk

/-- Python `key.split('.')`. -/
def pySplitDots (s : String) : List String :=
  (splitChar (Char.ofNat 46) s.toList).map String.mk

/-- Python `name.rsplit('.', 1)[0]`: everything before the last dot, or the
whole string when it has no dot. -/
def rsplitDotHead (s : String) : String :=
  let parts := splitChar (Char.ofNat 46) s.toList
  if parts.length ≤ 1 then s
  else String.mk (String.intercalate "." ((parts.map String.mk).dropLast)).toList

/-- The namespace of workflow configuration lines
(`ingest.py`, `get_config_params`). -/
def wfConfigNs : String := "org.opencastproject.workflow.config"

/-- The namespace of workflow definition lines
(`ingest.py`, `get_config_params`). -/
def wfDefNs : String := "org.opencastproject.workflow.definition"

/-- One iteration of the `for prop in properties.split('\n')` loop of
`get_config_params`, with the accumulated `wdef` and `param` threaded
explicitly.  A config-namespace line is unpacked by
`key, val = prop.split('=', 1)` — one piece only (no `=`) raises
`ValueError`; a definition-namespace line sets `wdef` to
`prop.split('=', 1)[-1]`. -/
def gcpGo : List String → String → List (String × String) →
    Except PyError (String × List (String × String))
  | [], wdef, param => .ok (wdef, param)
  | prop :: rest, wdef, param =>
    if strStarts prop wfConfigNs then
      match pySplitEq1 prop with
      | [key, val] => gcpGo rest wdef (param ++ [((pySplitDots key).getLastD "", val)])
      | _ => .error .valueError
    else if strStarts prop wfDefNs then
      gcpGo rest ((pySplitEq1 prop).getLastD "") param
    else
      gcpGo rest wdef param

/-- `get_config_params(properties)` from `pyca/ingest.py`: extract the
workflow definition id and the workflow configuration key/value pairs from
the agent-properties text. -/
def get_config_params (properties : String) :
    Except PyError (String × List (String × String)) :=
  gcpGo (pyLines properties) "" []

/-- Event lifecycle states (`pyca.db.Status`), restricted to the values the
ingest module uses. -/
inductive Status where
  | finished_recording
  | uploading
  | finished_uploading
  | failed_uploading
deriving DecidableEq, Repr

/-- Own-service health values (`pyca.db.ServiceStatus`). -/
inductive ServiceStatus where
  | busy
  | idle
  | stopped
deriving DecidableEq, Repr

/-- The service kinds of `pyca.db.Service`; only `INGEST` appears here. -/
inductive Service where
  | ingest
deriving DecidableEq, Repr

/-- One metadata attachment of a recorded event, as consumed by
`event.get_data().get('attach')`: the `x-apple-filename` label and the
`fmttype` MIME type may be absent (`attachment.get` returns `None`), the
`data` payload is its text. -/
structure Attachment where
  x_apple_filename : Option String
  fmttype : Option String
  data : String
deriving DecidableEq, Repr

/-- One `(flavor, track-path)` pair from `event.get_tracks()`. -/
structure Track where
  flavor : String
  path : String
deriving DecidableEq, Repr

/-- The slice of a `RecordedEvent` that `ingest` reads: its uid, its
attachments, its tracks and its recording directory. -/
structure Event where
  uid : String
  attach : List Attachment
  tracks : List Track
  directory : String
deriving DecidableEq, Repr

/-- The configuration values `ingest.py` reads through
`config('ingest', ...)`. -/
structure Config where
  upload_catalogs : Bool
  delete_after_upload : Bool
  delay_min : Int
  delay_max : Int
deriving DecidableEq, Repr

/-- One field of a multipart HTTP form: a plain text field, or a file-upload
field (`pycurl.FORM_FILE`) carrying the path of the file to upload. -/
inductive FormField where
  | str (name value : String)
  | file (name path : String)
deriving DecidableEq, Repr

/-- Observable effects of the ingest module, in program order:
service-status writes (debounced and immediate variants), systemd
notifications, recording-state broadcasts, event-status updates, HTTP
requests (with their form fields), recursive directory removal, the
database query/close of the control loop, and the two kinds of sleeps. -/
inductive Effect where
  | setServiceStatus (svc : Service) (st : ServiceStatus)
  | setServiceStatusImmediate (svc : Service) (st : ServiceStatus)
  | notify (msg : String)
  | recordingState (uid state : String)
  | updateEventStatus (uid : String) (st : Status)
  | http (url : String) (fields : List FormField)
  | rmtree (dir : String)
  | dbQuery
  | dbClose
  | sleepJitter (secs : Int)
  | sleepTick
deriving DecidableEq, Repr

/-- The external world of one `ingest` run: the service registry lookup
result (`service('ingest', force_update=True)`), the value drawn by
`random.randrange`, the response (or failure) of the n-th HTTP request of
the run, and the composite
`ElementTree.tostring(set id (ElementTree.fromstring doc))` of the
identity-forcing step — a local library transform, modelled as an oracle on
`(document, uid)` because parsing and serialisation live outside the
repository; its structural content is modelled separately by
`forceUidDoc`. -/
structure Oracle where
  services : List String
  randIndex : Nat
  http : Nat → Except PyError String
  forceParse : String → String → Except PyError String

/-- The reserved agent-properties attachment label (`prop` in `ingest`). -/
def propLabel : String := "org.opencastproject.capture.agent.properties"

/-- The Dublin Core namespace marker (`dcns` in `ingest`). -/
def dcns : String := "http://www.opencastproject.org/xsd/1.0/dublincore/"

/-- `attachment.get('x-apple-filename') == prop`: this attachment is the
agent-properties attachment. -/
def isAgentProps (a : Attachment) : Bool := a.x_apple_filename == some propLabel

/-- The condition of the `elif` branch that uploads a Dublin Core catalog:
XML MIME type, Dublin Core namespace marker in the payload, and catalog
upload enabled — evaluated only when the attachment is not the
agent-properties one. -/
def isDcUpload (cfg : Config) (a : Attachment) : Bool :=
  a.fmttype == some "application/xml" && strContainsSub dcns a.data
    && cfg.upload_catalogs

/-- An attachment for which `ingest` performs an `addDCCatalog` call. -/
def qualifies (cfg : Config) (a : Attachment) : Bool :=
  !isAgentProps a && isDcUpload cfg a

/-- `attachment.get('x-apple-filename', '').rsplit('.', 1)[0]`: the catalog
name is the label with its file extension stripped. -/
def dcCatalogName (a : Attachment) : String :=
  rsplitDotHead (a.x_apple_filename.getD "")

/-- The form fields of an `addDCCatalog` call. -/
def dcFields (mp : String) (a : Attachment) : List FormField :=
  [.str "mediaPackage" mp, .str "flavor" ("dublincore/" ++ dcCatalogName a),
   .str "dublinCore" a.data]

/-- The form fields of an `addTrack` call; the file path is re-encoded with
`track.encode('ascii', 'ignore')` before the upload. -/
def trackFields (mp : String) (t : Track) : List FormField :=
  [.str "mediaPackage" mp, .str "flavor" t.flavor,
   .file "BODY1" (asciiIgnore t.path)]

/-- The form fields of the final `/ingest` call (lines 116–122):
`mediaPackage`, then `workflowDefinitionId` when the parsed definition id is
truthy (non-empty), then `workflowInstanceId` — the uid re-encoded with
`encode('ascii', 'ignore')` — when `event.uid` is truthy, then all workflow
configuration pairs. -/
def submitFields (mp : String) (wf : String × List (String × String))
    (uid : String) : List FormField :=
  [FormField.str "mediaPackage" mp]
    ++ (if wf.1 ≠ "" then [FormField.str "workflowDefinitionId" wf.1] else [])
    ++ (if uid ≠ "" then [FormField.str "workflowInstanceId" (asciiIgnore uid)] else [])
    ++ wf.2.map (fun kv => FormField.str kv.1 kv.2)

/-- Service selection (lines 61–63): take the registry lookup result and
index it with `random.randrange(0, len(service_url))`.  On an empty list
`randrange(0, 0)` raises `ValueError` (the spec's `NoServiceAvailable`);
otherwise the drawn index is in range and selects one URL. -/
def selectService (o : Oracle) : Except PyError String :=
  if o.services.length = 0 then .error .emptyRange
  else .ok (o.services.getD (o.randIndex % o.services.length) "")

/-- The URL `selectService` yields on a non-empty registry. -/
def selectedUrl (o : Oracle) : String :=
  o.services.getD (o.randIndex % o.services.length) ""

/-- The effects of lines 52–55, emitted before anything can fail: own
status `BUSY`, `STATUS=Uploading`, recording state `uploading`, event
status `UPLOADING`. -/
def preEffects (e : Event) : List Effect :=
  [.setServiceStatus .ingest .busy, .notify "STATUS=Uploading",
   .recordingState e.uid "uploading", .updateEventStatus e.uid .uploading]

/-- The effects of lines 126–133, emitted only after the `/ingest` call
returned: recording state `upload_finished`, event status
`FINISHED_UPLOADING`, the conditional recursive removal of the event
directory, `STATUS=Running`, own status `IDLE` immediately. -/
def postEffects (cfg : Config) (e : Event) : List Effect :=
  [.recordingState e.uid "upload_finished",
   .updateEventStatus e.uid .finished_uploading]
    ++ (if cfg.delete_after_upload then [Effect.rmtree e.directory] else [])
    ++ [.notify "STATUS=Running", .setServiceStatusImmediate .ingest .idle]

/-- The attachment loop (lines 84–103), threading the current mediapackage,
the optional `(workflow_def, workflow_config)` binding (`none` = the Python
locals are still unbound) and the index of the next HTTP call.  The
agent-properties attachment is parsed (a parse failure propagates) and
never uploaded; a qualifying DC attachment is uploaded and the response
becomes the new current mediapackage; every other attachment is skipped. -/
def attachLoop (cfg : Config) (o : Oracle) (url : String) :
    List Attachment → String → Option (String × List (String × String)) → Nat →
    List Effect × Except PyError (String × Option (String × List (String × String)) × Nat)
  | [], mp, wf, n => ([], .ok (mp, wf, n))
  | a :: rest, mp, wf, n =>
    if isAgentProps a then
      match get_config_params a.data with
      | .error err => ([], .error err)
      | .ok w => attachLoop cfg o url rest mp (some w) n
    else if isDcUpload cfg a then
      match o.http n with
      | .error err => ([.http (url ++ "/addDCCatalog") (dcFields mp a)], .error err)
      | .ok resp =>
        let r := attachLoop cfg o url rest resp wf (n + 1)
        (.http (url ++ "/addDCCatalog") (dcFields mp a) :: r.1, r.2)
    else
      attachLoop cfg o url rest mp wf n

/-- The track loop (lines 106–112): one `addTrack` call per `(flavor,
track)` pair, in order, each threading the previous response. -/
def trackLoop (o : Oracle) (url : String) :
    List Track → String → Nat → List Effect × Except PyError (String × Nat)
  | [], mp, n => ([], .ok (mp, n))
  | t :: rest, mp, n =>
    match o.http n with
    | .error err => ([.http (url ++ "/addTrack") (trackFields mp t)], .error err)
    | .ok resp =>
      let r := trackLoop o url rest resp (n + 1)
      (.http (url ++ "/addTrack") (trackFields mp t) :: r.1, r.2)

/-- `ingest(event, force_uid)` from `pyca/ingest.py`, as the pair of its
effect trace and its outcome (`.ok ()` = returned, `.error` = raised).
Status updates; service selection; `createMediaPackage`; the conditional
identity-forcing local transform; the attachment pass; the track pass; the
final `/ingest` submit — reading `workflow_def` there raises
`UnboundLocalError` when no agent-properties attachment bound it; then the
post-upload effects. -/
def ingest (cfg : Config) (o : Oracle) (e : Event) (force_uid : Bool) :
    List Effect × Except PyError Unit :=
  let pre := preEffects e
  match selectService o with
  | .error err => (pre, .error err)
  | .ok url =>
    let createFx := Effect.http (url ++ "/createMediaPackage") []
    match o.http 0 with
    | .error err => (pre ++ [createFx], .error err)
    | .ok mp0 =>
      match (if force_uid then o.forceParse mp0 e.uid else .ok mp0) with
      | .error err => (pre ++ [createFx], .error err)
      | .ok mp1 =>
        match attachLoop cfg o url e.attach mp1 none 1 with
        | (tr1, .error err) => (pre ++ [createFx] ++ tr1, .error err)
        | (tr1, .ok (mp2, wfOpt, n2)) =>
          match trackLoop o url e.tracks mp2 n2 with
          | (tr2, .error err) => (pre ++ [createFx] ++ tr1 ++ tr2, .error err)
          | (tr2, .ok (mp3, n3)) =>
            match wfOpt with
            | none => (pre ++ [createFx] ++ tr1 ++ tr2, .error .unboundLocal)
            | some wf =>
              let ingFx := Effect.http (url ++ "/ingest") (submitFields mp3 wf e.uid)
              match o.http n3 with
              | .error err => (pre ++ [createFx] ++ tr1 ++ tr2 ++ [ingFx], .error err)
              | .ok _ =>
                (pre ++ [createFx] ++ tr1 ++ tr2 ++ [ingFx] ++ postEffects cfg e,
                 .ok ())

/-- `safe_start_ingest(event)`: run `ingest` and absorb any exception,
appending the recovery effects of lines 147–149 (recording state
`upload_error`, event status `FAILED_UPLOADING`, own status `IDLE`
immediately).  It is total: no outcome component remains. -/
def safe_start_ingest (cfg : Config) (o : Oracle) (e : Event) : List Effect :=
  match ingest cfg o e false with
  | (tr, .ok _) => tr
  | (tr, .error _) =>
    tr ++ [.recordingState e.uid "upload_error",
           .updateEventStatus e.uid .failed_uploading,
           .setServiceStatusImmediate .ingest .idle]

/-- The external world of `control_loop`: the first `FINISHED_RECORDING`
event found by the per-iteration database query, the value drawn by
`random.randint(delay_min, delay_max)`, and the ingest-run oracle of that
iteration. -/
structure LoopOracle where
  nextEvent : Nat → Option Event
  delay : Nat → Int
  oracleAt : Nat → Oracle

/-- The auto-ingest flag (line 160), computed once before the loop:
`config('ingest', 'delay_max') >= config('ingest', 'delay_min')`. -/
def autoMode (cfg : Config) : Bool := decide (cfg.delay_max ≥ cfg.delay_min)

/-- One iteration of the `while not terminate()` loop (lines 161–177):
watchdog notification; when auto-ingest is on, the database query, and — if
an eligible event was found — the jitter sleep followed by
`safe_start_ingest`, then the session close; finally the fixed 1-second
poll sleep. -/
def loop_iter (cfg : Config) (lo : LoopOracle) (i : Nat) : List Effect :=
  Effect.notify "WATCHDOG=1" ::
    ((if autoMode cfg then
        Effect.dbQuery ::
          (match lo.nextEvent i with
           | some e =>
             Effect.sleepJitter (lo.delay i) :: safe_start_ingest cfg (lo.oracleAt i) e
           | none => [])
          ++ [Effect.dbClose]
      else [])
      ++ [Effect.sleepTick])

/-- `fuel` further iterations of the control loop starting at iteration
`i`; `fuel` is the number of iterations until `terminate()` turns true. -/
def loop_run (cfg : Config) (lo : LoopOracle) : Nat → Nat → List Effect
  | _, 0 => []
  | i, fuel + 1 => loop_iter cfg lo i ++ loop_run cfg lo (i + 1) fuel

/-- `control_loop()` from `pyca/ingest.py`: own status `IDLE` immediately,
`READY=1`, `STATUS=Running`, then the iterations, then — once `terminate()`
is true — own status `STOPPED`. -/
def control_loop (cfg : Config) (lo : LoopOracle) (fuel : Nat) : List Effect :=
  [.setServiceStatusImmediate .ingest .idle, .notify "READY=1",
   .notify "STATUS=Running"]
    ++ loop_run cfg lo 0 fuel
    ++ [.setServiceStatus .ingest .stopped]

/-- A parsed XML element as `ElementTree.fromstring` yields it: its tag, its
attribute dictionary (association list, insertion ordered) and its
remaining content (children and text), which the identity-forcing step
never touches. -/
structure XmlElem where
  tag : String
  attrib : List (String × String)
  body : String
deriving DecidableEq, Repr

/-- `ElementTree.Element.set(key, value)` on the attribute dictionary:
overwrite the value in place when the key is present, append the pair
otherwise. -/
def setAttr : List (String × String) → String → String → List (String × String)
  | [], k, v => [(k, v)]
  | (k0, v0) :: rest, k, v =>
    if k0 = k then (k, v) :: rest else (k0, v0) :: setAttr rest k v

/-- Attribute lookup on the dictionary. -/
def getAttr : List (String × String) → String → Option String
  | [], _ => none
  | (k0, v0) :: rest, k => if k0 = k then some v0 else getAttr rest k

/-- The structural content of the identity-forcing step (lines 74–79):
`xml_root.set('id', event.uid)` on the parsed document; everything but the
root attribute dictionary is left alone, and re-serialisation is the
oracle's business. -/
def forceUidDoc (doc : XmlElem) (uid : String) : XmlElem :=
  { doc with attrib := setAttr doc.attrib "id" uid }

/-- A line the config branch of `get_config_params` accepts. -/
def isCfgLine (l : String) : Bool := strStarts l wfConfigNs

/-- A line the definition branch of `get_config_params` accepts (the
config branch, tried first, must have rejected it). -/
def isDefLine (l : String) : Bool := !strStarts l wfConfigNs && strStarts l wfDefNs

/-- Everything after the first `=` of a line (the whole line when it has
no `=`): `prop.split('=', 1)[-1]`. -/
def afterFirstEq (l : String) : String := (pySplitEq1 l).getLastD ""

/-- The key of a config line reduced to its last dot-segment. -/
def leafKey (l : String) : String :=
  (pySplitDots ((pySplitEq1 l).headD "")).getLastD ""

/-- The configuration pairs a well-formed properties text yields: one pair
per config-namespace line, in original order, keys reduced to leaf names. -/
def cfgParams (ls : List String) : List (String × String) :=
  (ls.filter isCfgLine).map (fun l => (leafKey l, afterFirstEq l))

/-- The workflow definition id a properties text yields: the value of the
last definition-namespace line, or the seed when there is none. -/
def lastDefTake (w0 : String) (ls : List String) : String :=
  match (ls.filter isDefLine).getLast? with
  | some l => afterFirstEq l
  | none => w0

/-- The `addDCCatalog` call sequence for a list of catalogs: one call per
catalog, each carrying the current mediapackage and each superseded by the
response of its own call (`resp n` is the n-th HTTP response of the run). -/
def dcCalls (url : String) (resp : Nat → String) :
    List Attachment → String → Nat → List Effect
  | [], _, _ => []
  | a :: rest, mp, n =>
    .http (url ++ "/addDCCatalog") (dcFields mp a) :: dcCalls url resp rest (resp n) (n + 1)

/-- The `addTrack` call sequence for a list of tracks, response-chained the
same way. -/
def trackCalls (url : String) (resp : Nat → String) :
    List Track → String → Nat → List Effect
  | [], _, _ => []
  | t :: rest, mp, n =>
    .http (url ++ "/addTrack") (trackFields mp t) :: trackCalls url resp rest (resp n) (n + 1)

/-- The URLs of the HTTP requests of a trace, in order. -/
def httpUrls (tr : List Effect) : List String :=
  tr.filterMap (fun fx => match fx with | .http u _ => some u | _ => none)

/-- The file-upload paths of a form. -/
def filePaths (fs : List FormField) : List String :=
  fs.filterMap (fun f => match f with | .file _ p => some p | _ => none)

/-- All file-upload paths sent by the HTTP requests of a trace, in order. -/
def fileFieldPaths (tr : List Effect) : List String :=
  tr.foldr (fun fx acc =>
    match fx with | .http _ fs => filePaths fs ++ acc | _ => acc) []

/-- The parse of an agent-properties attachment, defaulting on failure
(used only under a no-failure hypothesis). -/
def wfOf (a : Attachment) : String × List (String × String) :=
  match get_config_params a.data with
  | .ok w => w
  | .error _ => ("", [])

/-- The `(workflow_def, workflow_config)` binding left by the attachment
pass: the parse of the last agent-properties attachment, `none` when there
is none (the Python locals stay unbound). -/
def wfFinal : List Attachment → Option (String × List (String × String)) :=
  List.foldl (fun w a => if isAgentProps a then some (wfOf a) else w) none

/-- The mediapackage current after `len` response-chained calls starting
from `mp` at HTTP index `n`. -/
def chainEnd (resp : Nat → String) (mp : String) (n len : Nat) : String :=
  if len = 0 then mp else resp (n + len - 1)

/-- The n-th HTTP response of a run, defaulting on failure (used only under
an all-successes hypothesis). -/
def oracleResp (o : Oracle) (n : Nat) : String :=
  match o.http n with
  | .ok s => s
  | .error _ => ""

/-- Number of watchdog heartbeats in a trace. -/
def countWatchdog (tr : List Effect) : Nat :=
  tr.countP (fun fx => decide (fx = Effect.notify "WATCHDOG=1"))

lemma isDefLine_eq_false_of_cfg {l : String} (h : isCfgLine l = true) :
    isDefLine l = false := by
  have h' : strStarts l wfConfigNs = true := h
  simp [isDefLine, h']

lemma lastDefTake_cons_cfg {l : String} (h : isCfgLine l = true)
    (w0 : String) (ls : List String) :
    lastDefTake w0 (l :: ls) = lastDefTake w0 ls := by
  simp [lastDefTake, List.filter_cons, isDefLine_eq_false_of_cfg h]

lemma cfgParams_cons_cfg {l : String} (h : isCfgLine l = true) (ls : List String) :
    cfgParams (l :: ls) = (leafKey l, afterFirstEq l) :: cfgParams ls := by
  simp [cfgParams, List.filter_cons, h]

lemma cfgParams_cons_not_cfg {l : String} (h : isCfgLine l = false) (ls : List String) :
    cfgParams (l :: ls) = cfgParams ls := by
  simp [cfgParams, List.filter_cons, h]

lemma lastDefTake_cons_def {l : String} (hc : isCfgLine l = false)
    (hd : strStarts l wfDefNs = true) (w0 : String) (ls : List String) :
    lastDefTake w0 (l :: ls) = lastDefTake (afterFirstEq l) ls := by
  have hc' : strStarts l wfConfigNs = false := hc
  have hdl : isDefLine l = true := by simp [isDefLine, hc', hd]
  simp only [lastDefTake, List.filter_cons, hdl, if_pos]
  cases hfl : ls.filter isDefLine with
  | nil => simp
  | cons x xs =>
    simp only [List.getLast?_cons_cons]
    cases hgl : (x :: xs).getLast? with
    | none => simp at hgl
    | some y => rfl

lemma lastDefTake_cons_other {l : String} (hc : isCfgLine l = false)
    (hd : strStarts l wfDefNs = false) (w0 : String) (ls : List String) :
    lastDefTake w0 (l :: ls) = lastDefTake w0 ls := by
  have hc' : strStarts l wfConfigNs = false := hc
  have hdl : isDefLine l = false := by simp [isDefLine, hc', hd]
  simp [lastDefTake, List.filter_cons, hdl]

lemma pySplitEq1_two {l : String} (h : (pySplitEq1 l).length = 2) :
    ∃ k v, pySplitEq1 l = [k, v] := by
  match hp : pySplitEq1 l with
  | [] => rw [hp] at h; simp at h
  | [x] => rw [hp] at h; simp at h
  | [x, y] => exact ⟨x, y, rfl⟩
  | x :: y :: z :: r => rw [hp] at h; simp at h

lemma gcpGo_wellformed :
    ∀ (ls : List String) (w0 : String) (p0 : List (String × String)),
      (∀ l ∈ ls, isCfgLine l = true → (pySplitEq1 l).length = 2) →
      gcpGo ls w0 p0 = .ok (lastDefTake w0 ls, p0 ++ cfgParams ls)
  | [], w0, p0, _ => by simp [gcpGo, lastDefTake, cfgParams]
  | l :: ls, w0, p0, h => by
    have hrest : ∀ x ∈ ls, isCfgLine x = true → (pySplitEq1 x).length = 2 :=
      fun x hx => h x (List.mem_cons_of_mem _ hx)
    by_cases hc : isCfgLine l = true
    · obtain ⟨k, v, hkv⟩ := pySplitEq1_two (h l (List.mem_cons_self _ _) hc)
      have hc' : strStarts l wfConfigNs = true := hc
      have step : gcpGo (l :: ls) w0 p0
          = gcpGo ls w0 (p0 ++ [((pySplitDots k).getLastD "", v)]) := by
        simp [gcpGo, hc', hkv]
      rw [step, gcpGo_wellformed ls w0 _ hrest, lastDefTake_cons_cfg hc,
        cfgParams_cons_cfg hc]
      have hleaf : leafKey l = (pySplitDots k).getLastD "" := by
        simp [leafKey, hkv]
      have hval : afterFirstEq l = v := by simp [afterFirstEq, hkv]
      simp [hleaf, hval]
    · have hcf : isCfgLine l = false := by revert hc; cases isCfgLine l <;> simp
      have hc' : strStarts l wfConfigNs = false := hcf
      by_cases hd : strStarts l wfDefNs = true
      · have step : gcpGo (l :: ls) w0 p0
            = gcpGo ls ((pySplitEq1 l).getLastD "") p0 := by
          simp [gcpGo, hc', hd]
        rw [step, gcpGo_wellformed ls _ _ hrest, lastDefTake_cons_def hcf hd,
          cfgParams_cons_not_cfg hcf]
        rfl
      · have hdf : strStarts l wfDefNs = false := by
          revert hd; cases strStarts l wfDefNs <;> simp
        have step : gcpGo (l :: ls) w0 p0 = gcpGo ls w0 p0 := by
          simp [gcpGo, hc', hdf]
        rw [step, gcpGo_wellformed ls w0 p0 hrest, lastDefTake_cons_other hcf hdf,
          cfgParams_cons_not_cfg hcf]

lemma gcpGo_ok_iff :
    ∀ (ls : List String) (w0 : String) (p0 : List (String × String)),
      (gcpGo ls w0 p0).isOk = true
        ↔ (∀ l ∈ ls, isCfgLine l = true → (pySplitEq1 l).length = 2)
  | [], w0, p0 => by
    simp only [gcpGo]
    constructor
    · intro _ l hl _; exact absurd hl (List.not_mem_nil _)
    · intro _; rfl
  | l :: ls, w0, p0 => by
    constructor
    · intro hok
      by_cases hc : isCfgLine l = true
      · have hc' : strStarts l wfConfigNs = true := hc
        match hp : pySplitEq1 l with
        | [k, v] =>
          have step : gcpGo (l :: ls) w0 p0
              = gcpGo ls w0 (p0 ++ [((pySplitDots k).getLastD "", v)]) := by
            simp [gcpGo, hc', hp]
          rw [step] at hok
          intro x hx hxc
          rcases List.mem_cons.mp hx with rfl | hx'
          · rw [hp]; rfl
          · exact (gcpGo_ok_iff ls w0 _).mp hok x hx' hxc
        | [] =>
          have : gcpGo (l :: ls) w0 p0 = .error .valueError := by
            simp [gcpGo, hc', hp]
          rw [this] at hok; simp [Except.isOk, Except.toBool] at hok
        | [x] =>
          have : gcpGo (l :: ls) w0 p0 = .error .valueError := by
            simp [gcpGo, hc', hp]
          rw [this] at hok; simp [Except.isOk, Except.toBool] at hok
        | x :: y :: z :: r =>
          have : gcpGo (l :: ls) w0 p0 = .error .valueError := by
            simp [gcpGo, hc', hp]
          rw [this] at hok; simp [Except.isOk, Except.toBool] at hok
      · have hcf : isCfgLine l = false := by revert hc; cases isCfgLine l <;> simp
        have hc' : strStarts l wfConfigNs = false := hcf
        intro x hx hxc
        rcases List.mem_cons.mp hx with rfl | hx'
        · rw [hcf] at hxc; cases hxc
        · by_cases hd : strStarts l wfDefNs = true
          · have step : gcpGo (l :: ls) w0 p0
                = gcpGo ls ((pySplitEq1 l).getLastD "") p0 := by
              simp [gcpGo, hc', hd]
            rw [step] at hok
            exact (gcpGo_ok_iff ls _ _).mp hok x hx' hxc
          · have hdf : strStarts l wfDefNs = false := by
              revert hd; cases strStarts l wfDefNs <;> simp
            have step : gcpGo (l :: ls) w0 p0 = gcpGo ls w0 p0 := by
              simp [gcpGo, hc', hdf]
            rw [step] at hok
            exact (gcpGo_ok_iff ls _ _).mp hok x hx' hxc
    · intro h
      rw [gcpGo_wellformed (l :: ls) w0 p0 h]
      rfl

lemma selectService_ok {o : Oracle} (h : o.services ≠ []) :
    selectService o = .ok (selectedUrl o) := by
  have hl : o.services.length ≠ 0 := fun hl => h (List.length_eq_zero.mp hl)
  simp [selectService, selectedUrl, hl]

lemma chainEnd_shift (resp : Nat → String) (n len : Nat) :
    chainEnd resp (resp n) (n + 1) len = resp (n + len) := by
  cases len with
  | zero => simp [chainEnd]
  | succ k => simp only [chainEnd, Nat.succ_ne_zero, if_false]; congr 1; omega

lemma chainEnd_succ (resp : Nat → String) (mp : String) (n len : Nat) :
    chainEnd resp mp n (len + 1) = resp (n + len) := by
  simp only [chainEnd, Nat.succ_ne_zero, if_false]; congr 1

lemma attachLoop_all_ok {cfg : Config} {o : Oracle} {url : String}
    (hh : ∀ k, o.http k = .ok (oracleResp o k)) :
    ∀ (atts : List Attachment) (mp : String)
      (wf : Option (String × List (String × String))) (n : Nat),
      (∀ a ∈ atts, isAgentProps a = true → (get_config_params a.data).isOk = true) →
      attachLoop cfg o url atts mp wf n
        = (dcCalls url (oracleResp o) (atts.filter (qualifies cfg)) mp n,
           .ok (chainEnd (oracleResp o) mp n (atts.filter (qualifies cfg)).length,
                atts.foldl (fun w a => if isAgentProps a then some (wfOf a) else w) wf,
                n + (atts.filter (qualifies cfg)).length))
  | [], mp, wf, n, _ => by simp [attachLoop, dcCalls, chainEnd]
  | a :: rest, mp, wf, n, hp => by
    have hrest : ∀ x ∈ rest, isAgentProps x = true → (get_config_params x.data).isOk = true :=
      fun x hx => hp x (List.mem_cons_of_mem _ hx)
    by_cases hap : isAgentProps a = true
    · have hok := hp a (List.mem_cons_self _ _) hap
      obtain ⟨w, hw⟩ : ∃ w, get_config_params a.data = .ok w := by
        cases hg : get_config_params a.data with
        | ok w => exact ⟨w, rfl⟩
        | error err => rw [hg] at hok; simp [Except.isOk, Except.toBool] at hok
      have hq : qualifies cfg a = false := by simp [qualifies, hap]
      have step : attachLoop cfg o url (a :: rest) mp wf n
          = attachLoop cfg o url rest mp (some w) n := by
        simp [attachLoop, hap, hw]
      have hwof : wfOf a = w := by simp [wfOf, hw]
      rw [step, attachLoop_all_ok hh rest mp (some w) n hrest]
      simp [List.filter_cons, hq, List.foldl_cons, hap, hwof]
    · have hapf : isAgentProps a = false := by revert hap; cases isAgentProps a <;> simp
      by_cases hdc : isDcUpload cfg a = true
      · have hq : qualifies cfg a = true := by simp [qualifies, hapf, hdc]
        have step : attachLoop cfg o url (a :: rest) mp wf n
            = (.http (url ++ "/addDCCatalog") (dcFields mp a) ::
                 (attachLoop cfg o url rest (oracleResp o n) wf (n + 1)).1,
               (attachLoop cfg o url rest (oracleResp o n) wf (n + 1)).2) := by
          simp [attachLoop, hapf, hdc, hh n]
        rw [step, attachLoop_all_ok hh rest (oracleResp o n) wf (n + 1) hrest]
        have hidx : n + 1 + (List.filter (qualifies cfg) rest).length
            = n + ((List.filter (qualifies cfg) rest).length + 1) := by omega
        simp [List.filter_cons, hq, dcCalls, List.foldl_cons, hapf,
          chainEnd_shift, chainEnd_succ, hidx]
      · have hdcf : isDcUpload cfg a = false := by
          revert hdc; cases isDcUpload cfg a <;> simp
        have hq : qualifies cfg a = false := by simp [qualifies, hdcf]
        have step : attachLoop cfg o url (a :: rest) mp wf n
            = attachLoop cfg o url rest mp wf n := by
          simp [attachLoop, hapf, hdcf]
        rw [step, attachLoop_all_ok hh rest mp wf n hrest]
        simp [List.filter_cons, hq, List.foldl_cons, hapf]

lemma trackLoop_all_ok {o : Oracle} {url : String}
    (hh : ∀ k, o.http k = .ok (oracleResp o k)) :
    ∀ (tks : List Track) (mp : String) (n : Nat),
      trackLoop o url tks mp n
        = (trackCalls url (oracleResp o) tks mp n,
           .ok (chainEnd (oracleResp o) mp n tks.length, n + tks.length))
  | [], mp, n => by simp [trackLoop, trackCalls, chainEnd]
  | t :: rest, mp, n => by
    have step : trackLoop o url (t :: rest) mp n
        = (.http (url ++ "/addTrack") (trackFields mp t) ::
             (trackLoop o url rest (oracleResp o n) (n + 1)).1,
           (trackLoop o url rest (oracleResp o n) (n + 1)).2) := by
      simp [trackLoop, hh n]
    rw [step, trackLoop_all_ok hh rest (oracleResp o n) (n + 1)]
    have hidx : n + 1 + rest.length = n + (rest.length + 1) := by omega
    simp [trackCalls, chainEnd_shift, chainEnd_succ, hidx]

lemma ingest_all_ok (cfg : Config) (o : Oracle) (e : Event) (fu : Bool)
    (mp1 : String) (wfv : String × List (String × String))
    (hsvc : o.services ≠ [])
    (hh : ∀ k, o.http k = .ok (oracleResp o k))
    (hmp1 : (if fu then o.forceParse (oracleResp o 0) e.uid
             else .ok (oracleResp o 0)) = .ok mp1)
    (hp : ∀ a ∈ e.attach, isAgentProps a = true → (get_config_params a.data).isOk = true)
    (hw : wfFinal e.attach = some wfv) :
    ingest cfg o e fu
      = (preEffects e
          ++ [Effect.http (selectedUrl o ++ "/createMediaPackage") []]
          ++ dcCalls (selectedUrl o) (oracleResp o) (e.attach.filter (qualifies cfg)) mp1 1
          ++ trackCalls (selectedUrl o) (oracleResp o) e.tracks
               (chainEnd (oracleResp o) mp1 1 (e.attach.filter (qualifies cfg)).length)
               (1 + (e.attach.filter (qualifies cfg)).length)
          ++ [Effect.http (selectedUrl o ++ "/ingest")
                (submitFields
                  (chainEnd (oracleResp o)
                    (chainEnd (oracleResp o) mp1 1 (e.attach.filter (qualifies cfg)).length)
                    (1 + (e.attach.filter (qualifies cfg)).length) e.tracks.length)
                  wfv e.uid)]
          ++ postEffects cfg e,
         .ok ()) := by
  have hw' : List.foldl (fun w a => if isAgentProps a then some (wfOf a) else w)
      none e.attach = some wfv := hw
  simp only [ingest, selectService_ok hsvc, hh 0, hmp1,
    attachLoop_all_ok hh e.attach mp1 none 1 hp,
    trackLoop_all_ok hh e.tracks
      (chainEnd (oracleResp o) mp1 1 (e.attach.filter (qualifies cfg)).length)
      (1 + (e.attach.filter (qualifies cfg)).length),
    hw', hh]

lemma attachLoop_mem {cfg : Config} {o : Oracle} {url : String} :
    ∀ (atts : List Attachment) (mp : String)
      (wf : Option (String × List (String × String))) (n : Nat) (fx : Effect),
      fx ∈ (attachLoop cfg o url atts mp wf n).1 →
      ∃ m a, a ∈ atts ∧ fx = .http (url ++ "/addDCCatalog") (dcFields m a)
  | [], mp, wf, n, fx, hfx => by simp [attachLoop] at hfx
  | a :: rest, mp, wf, n, fx, hfx => by
    by_cases hap : isAgentProps a = true
    · cases hg : get_config_params a.data with
      | error err =>
        rw [show (attachLoop cfg o url (a :: rest) mp wf n).1 = [] by
          simp [attachLoop, hap, hg]] at hfx
        simp at hfx
      | ok w =>
        rw [show attachLoop cfg o url (a :: rest) mp wf n
            = attachLoop cfg o url rest mp (some w) n by
          simp [attachLoop, hap, hg]] at hfx
        obtain ⟨m, b, hb, h2⟩ := attachLoop_mem rest mp (some w) n fx hfx
        exact ⟨m, b, List.mem_cons_of_mem _ hb, h2⟩
    · have hapf : isAgentProps a = false := by revert hap; cases isAgentProps a <;> simp
      by_cases hdc : isDcUpload cfg a = true
      · cases hhn : o.http n with
        | error err =>
          rw [show (attachLoop cfg o url (a :: rest) mp wf n).1
              = [.http (url ++ "/addDCCatalog") (dcFields mp a)] by
            simp [attachLoop, hapf, hdc, hhn]] at hfx
          simp at hfx
          exact ⟨mp, a, List.mem_cons_self _ _, hfx⟩
        | ok resp =>
          rw [show (attachLoop cfg o url (a :: rest) mp wf n).1
              = .http (url ++ "/addDCCatalog") (dcFields mp a)
                  :: (attachLoop cfg o url rest resp wf (n + 1)).1 by
            simp [attachLoop, hapf, hdc, hhn]] at hfx
          rcases List.mem_cons.mp hfx with rfl | hfx'
          · exact ⟨mp, a, List.mem_cons_self _ _, rfl⟩
          · obtain ⟨m, b, hb, h2⟩ := attachLoop_mem rest resp wf (n + 1) fx hfx'
            exact ⟨m, b, List.mem_cons_of_mem _ hb, h2⟩
      · have hdcf : isDcUpload cfg a = false := by
          revert hdc; cases isDcUpload cfg a <;> simp
        rw [show attachLoop cfg o url (a :: rest) mp wf n
            = attachLoop cfg o url rest mp wf n by
          simp [attachLoop, hapf, hdcf]] at hfx
        obtain ⟨m, b, hb, h2⟩ := attachLoop_mem rest mp wf n fx hfx
        exact ⟨m, b, List.mem_cons_of_mem _ hb, h2⟩

lemma trackLoop_mem {o : Oracle} {url : String} :
    ∀ (tks : List Track) (mp : String) (n : Nat) (fx : Effect),
      fx ∈ (trackLoop o url tks mp n).1 →
      ∃ m t, t ∈ tks ∧ fx = .http (url ++ "/addTrack") (trackFields m t)
  | [], mp, n, fx, hfx => by simp [trackLoop] at hfx
  | t :: rest, mp, n, fx, hfx => by
    cases hhn : o.http n with
    | error err =>
      rw [show (trackLoop o url (t :: rest) mp n).1
          = [.http (url ++ "/addTrack") (trackFields mp t)] by
        simp [trackLoop, hhn]] at hfx
      simp at hfx
      exact ⟨mp, t, List.mem_cons_self _ _, hfx⟩
    | ok resp =>
      rw [show (trackLoop o url (t :: rest) mp n).1
          = .http (url ++ "/addTrack") (trackFields mp t)
              :: (trackLoop o url rest resp (n + 1)).1 by
        simp [trackLoop, hhn]] at hfx
      rcases List.mem_cons.mp hfx with rfl | hfx'
      · exact ⟨mp, t, List.mem_cons_self _ _, rfl⟩
      · obtain ⟨m, s, hs, h2⟩ := trackLoop_mem rest resp (n + 1) fx hfx'
        exact ⟨m, s, List.mem_cons_of_mem _ hs, h2⟩

lemma selectService_ok_url {o : Oracle} {url : String}
    (hs : selectService o = .ok url) : url = selectedUrl o := by
  by_cases h0 : o.services.length = 0
  · simp [selectService, h0] at hs
  · simp [selectService, h0] at hs
    simp [selectedUrl]
    exact hs.symm

lemma ingest_effect_cases {cfg : Config} {o : Oracle} {e : Event} {fu : Bool}
    {fx : Effect} (hfx : fx ∈ (ingest cfg o e fu).1) :
    fx ∈ preEffects e
    ∨ fx = .http (selectedUrl o ++ "/createMediaPackage") []
    ∨ (∃ m a, a ∈ e.attach ∧ fx = .http (selectedUrl o ++ "/addDCCatalog") (dcFields m a))
    ∨ (∃ m t, t ∈ e.tracks ∧ fx = .http (selectedUrl o ++ "/addTrack") (trackFields m t))
    ∨ (∃ mp wf, fx = .http (selectedUrl o ++ "/ingest") (submitFields mp wf e.uid))
    ∨ ((ingest cfg o e fu).2 = .ok () ∧ fx ∈ postEffects cfg e) := by
  cases hs : selectService o with
  | error err =>
    rw [show (ingest cfg o e fu).1 = preEffects e by simp [ingest, hs]] at hfx
    exact Or.inl hfx
  | ok url =>
    have hurl := selectService_ok_url hs
    subst hurl
    cases hc : o.http 0 with
    | error err =>
      rw [show (ingest cfg o e fu).1
          = preEffects e ++ [Effect.http (selectedUrl o ++ "/createMediaPackage") []] by
        simp [ingest, hs, hc]] at hfx
      rcases List.mem_append.mp hfx with h | h
      · exact Or.inl h
      · simp at h; exact Or.inr (Or.inl h)
    | ok mp0 =>
      cases hf : (if fu then o.forceParse mp0 e.uid else .ok mp0) with
      | error err =>
        rw [show (ingest cfg o e fu).1
            = preEffects e ++ [Effect.http (selectedUrl o ++ "/createMediaPackage") []] by
          simp [ingest, hs, hc, hf]] at hfx
        rcases List.mem_append.mp hfx with h | h
        · exact Or.inl h
        · simp at h; exact Or.inr (Or.inl h)
      | ok mp1 =>
        cases hal : attachLoop cfg o (selectedUrl o) e.attach mp1 none 1 with
        | mk tr1 r1 =>
          have htr1 : tr1 = (attachLoop cfg o (selectedUrl o) e.attach mp1 none 1).1 := by
            rw [hal]
          cases r1 with
          | error err =>
            rw [show (ingest cfg o e fu).1
                = preEffects e ++ [Effect.http (selectedUrl o ++ "/createMediaPackage") []]
                    ++ tr1 by
              simp [ingest, hs, hc, hf, hal]] at hfx
            rcases List.mem_append.mp hfx with h | h
            · rcases List.mem_append.mp h with h' | h'
              · exact Or.inl h'
              · simp at h'; exact Or.inr (Or.inl h')
            · obtain ⟨m, a, ha, h2⟩ := attachLoop_mem e.attach mp1 none 1 fx (htr1 ▸ h)
              exact Or.inr (Or.inr (Or.inl ⟨m, a, ha, h2⟩))
          | ok trip =>
            obtain ⟨mp2, wfOpt, n2⟩ := trip
            cases htl : trackLoop o (selectedUrl o) e.tracks mp2 n2 with
            | mk tr2 r2 =>
              have htr2 : tr2 = (trackLoop o (selectedUrl o) e.tracks mp2 n2).1 := by
                rw [htl]
              have memtr : fx ∈ tr1 ∨ fx ∈ tr2 →
                  (∃ m a, a ∈ e.attach
                      ∧ fx = .http (selectedUrl o ++ "/addDCCatalog") (dcFields m a))
                  ∨ (∃ m t, t ∈ e.tracks
                      ∧ fx = .http (selectedUrl o ++ "/addTrack") (trackFields m t)) := by
                rintro (h | h)
                · exact Or.inl (attachLoop_mem e.attach mp1 none 1 fx (htr1 ▸ h))
                · exact Or.inr (trackLoop_mem e.tracks mp2 n2 fx (htr2 ▸ h))
              cases r2 with
              | error err =>
                rw [show (ingest cfg o e fu).1
                    = preEffects e
                        ++ [Effect.http (selectedUrl o ++ "/createMediaPackage") []]
                        ++ tr1 ++ tr2 by
                  simp [ingest, hs, hc, hf, hal, htl]] at hfx
                rcases List.mem_append.mp hfx with h | h
                · rcases List.mem_append.mp h with h' | h'
                  · rcases List.mem_append.mp h' with h'' | h''
                    · exact Or.inl h''
                    · simp at h''; exact Or.inr (Or.inl h'')
                  · rcases memtr (Or.inl h') with hh | hh
                    · exact Or.inr (Or.inr (Or.inl hh))
                    · exact Or.inr (Or.inr (Or.inr (Or.inl hh)))
                · rcases memtr (Or.inr h) with hh | hh
                  · exact Or.inr (Or.inr (Or.inl hh))
                  · exact Or.inr (Or.inr (Or.inr (Or.inl hh)))
              | ok pair =>
                obtain ⟨mp3, n3⟩ := pair
                cases wfOpt with
                | none =>
                  rw [show (ingest cfg o e fu).1
                      = preEffects e
                          ++ [Effect.http (selectedUrl o ++ "/createMediaPackage") []]
                          ++ tr1 ++ tr2 by
                    simp [ingest, hs, hc, hf, hal, htl]] at hfx
                  rcases List.mem_append.mp hfx with h | h
                  · rcases List.mem_append.mp h with h' | h'
                    · rcases List.mem_append.mp h' with h'' | h''
                      · exact Or.inl h''
                      · simp at h''; exact Or.inr (Or.inl h'')
                    · rcases memtr (Or.inl h') with hh | hh
                      · exact Or.inr (Or.inr (Or.inl hh))
                      · exact Or.inr (Or.inr (Or.inr (Or.inl hh)))
                  · rcases memtr (Or.inr h) with hh | hh
                    · exact Or.inr (Or.inr (Or.inl hh))
                    · exact Or.inr (Or.inr (Or.inr (Or.inl hh)))
                | some wf =>
                  cases hcn : o.http n3 with
                  | error err =>
                    rw [show (ingest cfg o e fu).1
                        = preEffects e
                            ++ [Effect.http (selectedUrl o ++ "/createMediaPackage") []]
                            ++ tr1 ++ tr2
                            ++ [Effect.http (selectedUrl o ++ "/ingest")
                                  (submitFields mp3 wf e.uid)] by
                      simp [ingest, hs, hc, hf, hal, htl, hcn]] at hfx
                    rcases List.mem_append.mp hfx with h | h
                    · rcases List.mem_append.mp h with h' | h'
                      · rcases List.mem_append.mp h' with h'' | h''
                        · rcases List.mem_append.mp h'' with h3 | h3
                          · exact Or.inl h3
                          · simp at h3; exact Or.inr (Or.inl h3)
                        · rcases memtr (Or.inl h'') with hh | hh
                          · exact Or.inr (Or.inr (Or.inl hh))
                          · exact Or.inr (Or.inr (Or.inr (Or.inl hh)))
                      · rcases memtr (Or.inr h') with hh | hh
                        · exact Or.inr (Or.inr (Or.inl hh))
                        · exact Or.inr (Or.inr (Or.inr (Or.inl hh)))
                    · simp at h
                      exact Or.inr (Or.inr (Or.inr (Or.inr (Or.inl ⟨mp3, wf, h⟩))))
                  | ok r =>
                    have hok : (ingest cfg o e fu).2 = .ok () := by
                      simp [ingest, hs, hc, hf, hal, htl, hcn]
                    rw [show (ingest cfg o e fu).1
                        = preEffects e
                            ++ [Effect.http (selectedUrl o ++ "/createMediaPackage") []]
                            ++ tr1 ++ tr2
                            ++ [Effect.http (selectedUrl o ++ "/ingest")
                                  (submitFields mp3 wf e.uid)]
                            ++ postEffects cfg e by
                      simp [ingest, hs, hc, hf, hal, htl, hcn]] at hfx
                    rcases List.mem_append.mp hfx with h | h
                    · rcases List.mem_append.mp h with h' | h'
                      · rcases List.mem_append.mp h' with h'' | h''
                        · rcases List.mem_append.mp h'' with h3 | h3
                          · rcases List.mem_append.mp h3 with h4 | h4
                            · exact Or.inl h4
                            · simp at h4; exact Or.inr (Or.inl h4)
                          · rcases memtr (Or.inl h3) with hh | hh
                            · exact Or.inr (Or.inr (Or.inl hh))
                            · exact Or.inr (Or.inr (Or.inr (Or.inl hh)))
                        · rcases memtr (Or.inr h'') with hh | hh
                          · exact Or.inr (Or.inr (Or.inl hh))
                          · exact Or.inr (Or.inr (Or.inr (Or.inl hh)))
                      · simp at h'
                        exact Or.inr (Or.inr (Or.inr (Or.inr (Or.inl ⟨mp3, wf, h'⟩))))
                    · exact Or.inr (Or.inr (Or.inr (Or.inr (Or.inr ⟨hok, h⟩))))

lemma httpUrls_append (t1 t2 : List Effect) :
    httpUrls (t1 ++ t2) = httpUrls t1 ++ httpUrls t2 := by
  simp [httpUrls]

lemma httpUrls_nil : httpUrls [] = [] := rfl

lemma httpUrls_cons_http (u : String) (fs : List FormField) (tr : List Effect) :
    httpUrls (Effect.http u fs :: tr) = u :: httpUrls tr := by
  simp [httpUrls]

lemma httpUrls_pre (e : Event) : httpUrls (preEffects e) = [] := by
  simp [httpUrls, preEffects]

lemma httpUrls_post (cfg : Config) (e : Event) : httpUrls (postEffects cfg e) = [] := by
  by_cases hdel : cfg.delete_after_upload = true <;> simp [httpUrls, postEffects, hdel]

lemma httpUrls_dcCalls (url : String) (resp : Nat → String) :
    ∀ (atts : List Attachment) (mp : String) (n : Nat),
      httpUrls (dcCalls url resp atts mp n)
        = List.replicate atts.length (url ++ "/addDCCatalog")
  | [], mp, n => by simp [dcCalls, httpUrls]
  | a :: rest, mp, n => by
    simp [dcCalls, httpUrls, List.replicate] at *
    exact httpUrls_dcCalls url resp rest (resp n) (n + 1)

lemma httpUrls_trackCalls (url : String) (resp : Nat → String) :
    ∀ (tks : List Track) (mp : String) (n : Nat),
      httpUrls (trackCalls url resp tks mp n)
        = List.replicate tks.length (url ++ "/addTrack")
  | [], mp, n => by simp [trackCalls, httpUrls]
  | t :: rest, mp, n => by
    simp [trackCalls, httpUrls, List.replicate] at *
    exact httpUrls_trackCalls url resp rest (resp n) (n + 1)

lemma not_http_mem_pre {u : String} {fs : List FormField} {e : Event} :
    Effect.http u fs ∉ preEffects e := by
  simp [preEffects]

lemma not_http_mem_post {u : String} {fs : List FormField} {cfg : Config} {e : Event} :
    Effect.http u fs ∉ postEffects cfg e := by
  by_cases hdel : cfg.delete_after_upload = true <;> simp [postEffects, hdel]

lemma rmtree_notin_pre {d : String} {e : Event} : Effect.rmtree d ∉ preEffects e := by
  simp [preEffects]

lemma rmtree_mem_post {d : String} {cfg : Config} {e : Event}
    (h : Effect.rmtree d ∈ postEffects cfg e) :
    cfg.delete_after_upload = true ∧ d = e.directory := by
  by_cases hdel : cfg.delete_after_upload = true
  · simp [postEffects, hdel] at h
    exact ⟨hdel, h⟩
  · simp [postEffects, hdel] at h

lemma file_notin_submitFields {nm p mp uid : String}
    {wf : String × List (String × String)} :
    FormField.file nm p ∉ submitFields mp wf uid := by
  by_cases h1 : wf.1 = "" <;> by_cases h2 : uid = "" <;>
    simp [submitFields, h1, h2]

lemma file_notin_dcFields {nm p mp : String} {a : Attachment} :
    FormField.file nm p ∉ dcFields mp a := by
  simp [dcFields]

lemma instanceId_mem_submitFields {mp uid : String}
    {wf : String × List (String × String)} (h : uid ≠ "") :
    FormField.str "workflowInstanceId" (asciiIgnore uid) ∈ submitFields mp wf uid := by
  by_cases h1 : wf.1 = "" <;> simp [submitFields, h1, h]

lemma ingest_ok_split {cfg : Config} {o : Oracle} {e : Event} {fu : Bool}
    (h : (ingest cfg o e fu).2 = .ok ()) :
    ∃ t1 fs, (ingest cfg o e fu).1
        = t1 ++ Effect.http (selectedUrl o ++ "/ingest") fs :: postEffects cfg e
      ∧ ∀ d, Effect.rmtree d ∉ t1 := by
  cases hs : selectService o with
  | error err => simp [ingest, hs] at h
  | ok url =>
    have hurl := selectService_ok_url hs
    subst hurl
    cases hc : o.http 0 with
    | error err => simp [ingest, hs, hc] at h
    | ok mp0 =>
      cases hf : (if fu then o.forceParse mp0 e.uid else .ok mp0) with
      | error err => simp [ingest, hs, hc, hf] at h
      | ok mp1 =>
        cases hal : attachLoop cfg o (selectedUrl o) e.attach mp1 none 1 with
        | mk tr1 r1 =>
          have htr1 : tr1 = (attachLoop cfg o (selectedUrl o) e.attach mp1 none 1).1 := by
            rw [hal]
          cases r1 with
          | error err => simp [ingest, hs, hc, hf, hal] at h
          | ok trip =>
            obtain ⟨mp2, wfOpt, n2⟩ := trip
            cases htl : trackLoop o (selectedUrl o) e.tracks mp2 n2 with
            | mk tr2 r2 =>
              have htr2 : tr2 = (trackLoop o (selectedUrl o) e.tracks mp2 n2).1 := by
                rw [htl]
              cases r2 with
              | error err => simp [ingest, hs, hc, hf, hal, htl] at h
              | ok pair =>
                obtain ⟨mp3, n3⟩ := pair
                cases wfOpt with
                | none => simp [ingest, hs, hc, hf, hal, htl] at h
                | some wf =>
                  cases hcn : o.http n3 with
                  | error err => simp [ingest, hs, hc, hf, hal, htl, hcn] at h
                  | ok r =>
                    refine ⟨preEffects e
                        ++ [Effect.http (selectedUrl o ++ "/createMediaPackage") []]
                        ++ tr1 ++ tr2, submitFields mp3 wf e.uid, ?_, ?_⟩
                    · rw [show (ingest cfg o e fu).1
                          = preEffects e
                              ++ [Effect.http (selectedUrl o ++ "/createMediaPackage") []]
                              ++ tr1 ++ tr2
                              ++ [Effect.http (selectedUrl o ++ "/ingest")
                                    (submitFields mp3 wf e.uid)]
                              ++ postEffects cfg e by
                        simp [ingest, hs, hc, hf, hal, htl, hcn]]
                      simp
                    · intro d hd
                      rcases List.mem_append.mp hd with hd' | hd'
                      · rcases List.mem_append.mp hd' with hd'' | hd''
                        · rcases List.mem_append.mp hd'' with h3 | h3
                          · exact rmtree_notin_pre h3
                          · simp at h3
                        · obtain ⟨m, a, _, h3⟩ :=
                            attachLoop_mem e.attach mp1 none 1 _ (htr1 ▸ hd'')
                          cases h3
                      · obtain ⟨m, t, _, h3⟩ :=
                          trackLoop_mem e.tracks mp2 n2 _ (htr2 ▸ hd')
                        cases h3

lemma getAttr_setAttr_self : ∀ (l : List (String × String)) (k v : String),
    getAttr (setAttr l k v) k = some v
  | [], k, v => by simp [setAttr, getAttr]
  | (k0, v0) :: rest, k, v => by
    by_cases hk : k0 = k
    · simp [setAttr, getAttr, hk]
    · simp [setAttr, getAttr, hk]
      exact getAttr_setAttr_self rest k v

lemma getAttr_setAttr_other : ∀ (l : List (String × String)) (k v k2 : String),
    k2 ≠ k → getAttr (setAttr l k v) k2 = getAttr l k2
  | [], k, v, k2, hne => by simp [setAttr, getAttr, Ne.symm hne]
  | (k0, v0) :: rest, k, v, k2, hne => by
    by_cases hk : k0 = k
    · subst hk
      simp [setAttr, getAttr, Ne.symm hne, hne]
    · simp only [setAttr, hk, if_false, getAttr]
      by_cases hk2 : k0 = k2
      · simp [hk2]
      · simp [hk2]
        exact getAttr_setAttr_other rest k v k2 hne

lemma watchdog_notin_ingest {cfg : Config} {o : Oracle} {e : Event} {fu : Bool} :
    Effect.notify "WATCHDOG=1" ∉ (ingest cfg o e fu).1 := by
  intro hmem
  rcases ingest_effect_cases hmem with
    h | h | ⟨m, a, _, h⟩ | ⟨m, t, _, h⟩ | ⟨mp, wf, h⟩ | ⟨_, h⟩
  · simp [preEffects] at h
  · simp at h
  · simp at h
  · simp at h
  · simp at h
  · by_cases hdel : cfg.delete_after_upload = true <;> simp [postEffects, hdel] at h

lemma watchdog_notin_safe {cfg : Config} {o : Oracle} {e : Event} :
    Effect.notify "WATCHDOG=1" ∉ safe_start_ingest cfg o e := by
  intro hmem
  unfold safe_start_ingest at hmem
  cases hing : ingest cfg o e false with
  | mk tr res =>
    have htr : tr = (ingest cfg o e false).1 := by rw [hing]
    rw [hing] at hmem
    cases res with
    | ok u => exact watchdog_notin_ingest (htr ▸ hmem)
    | error err =>
      rcases List.mem_append.mp hmem with h | h
      · exact watchdog_notin_ingest (htr ▸ h)
      · simp at h

lemma countWatchdog_eq_zero {tr : List Effect}
    (h : Effect.notify "WATCHDOG=1" ∉ tr) : countWatchdog tr = 0 := by
  rw [countWatchdog, List.countP_eq_zero]
  intro fx hfx hp
  exact h ((of_decide_eq_true hp) ▸ hfx)

lemma countWatchdog_append (t1 t2 : List Effect) :
    countWatchdog (t1 ++ t2) = countWatchdog t1 + countWatchdog t2 :=
  List.countP_append _ _ _

lemma countWatchdog_loop_iter (cfg : Config) (lo : LoopOracle) (i : Nat) :
    countWatchdog (loop_iter cfg lo i) = 1 := by
  have hz : countWatchdog
      ((if autoMode cfg then
          Effect.dbQuery ::
            (match lo.nextEvent i with
             | some e =>
               Effect.sleepJitter (lo.delay i) :: safe_start_ingest cfg (lo.oracleAt i) e
             | none => [])
            ++ [Effect.dbClose]
        else [])
        ++ [Effect.sleepTick]) = 0 := by
    apply countWatchdog_eq_zero
    intro hmem
    rcases List.mem_append.mp hmem with h | h
    · by_cases hauto : autoMode cfg = true
      · rw [if_pos hauto] at h
        rcases List.mem_cons.mp h with heq | h'
        · simp at heq
        · cases hne : lo.nextEvent i with
          | some ev =>
            rw [hne] at h'
            rcases List.mem_append.mp h' with h2 | h2
            · rcases List.mem_cons.mp h2 with heq | h3
              · simp at heq
              · exact watchdog_notin_safe h3
            · simp at h2
          | none =>
            rw [hne] at h'
            simp at h'
      · rw [if_neg hauto] at h; simp at h
    · simp at h
  unfold loop_iter
  rw [show ∀ (x : Effect) (l : List Effect),
      countWatchdog (x :: l)
        = countWatchdog l + (if decide (x = Effect.notify "WATCHDOG=1") then 1 else 0)
      from fun x l => List.countP_cons _ _ _]
  rw [hz]
  simp

lemma countWatchdog_loop_run (cfg : Config) (lo : LoopOracle) :
    ∀ (fuel i : Nat), countWatchdog (loop_run cfg lo i fuel) = fuel
  | 0, i => by simp [loop_run, countWatchdog]
  | fuel + 1, i => by
    simp [loop_run, countWatchdog_append, countWatchdog_loop_iter,
      countWatchdog_loop_run cfg lo fuel (i + 1)]
    omega

lemma countWatchdog_control_loop (cfg : Config) (lo : LoopOracle) (fuel : Nat) :
    countWatchdog (control_loop cfg lo fuel) = fuel := by
  have h1 : countWatchdog
      [Effect.setServiceStatusImmediate .ingest .idle, .notify "READY=1",
       .notify "STATUS=Running"] = 0 := by decide
  have h2 : countWatchdog [Effect.setServiceStatus .ingest .stopped] = 0 := by decide
  unfold control_loop
  rw [countWatchdog_append, countWatchdog_append, countWatchdog_loop_run, h1, h2]
  omega

lemma loop_iter_auto_off {cfg : Config} (h : autoMode cfg = false)
    (lo : LoopOracle) (i : Nat) :
    loop_iter cfg lo i = [Effect.notify "WATCHDOG=1", Effect.sleepTick] := by
  simp [loop_iter, h]

lemma loop_run_auto_off {cfg : Config} (h : autoMode cfg = false) (lo : LoopOracle) :
    ∀ (fuel i : Nat), loop_run cfg lo i fuel
      = (List.replicate fuel [Effect.notify "WATCHDOG=1", Effect.sleepTick]).flatten
  | 0, i => by simp [loop_run]
  | fuel + 1, i => by
    rw [loop_run, loop_iter_auto_off h, loop_run_auto_off h lo fuel (i + 1)]
    simp [List.replicate_succ]

/-- Concrete configuration for the evaluated runs: catalog upload and
post-upload deletion enabled, delay bounds `[0, 0]`. -/
def cfgDefault : Config := ⟨true, true, 0, 0⟩

/-- An all-successes oracle: one registered ingest service, every HTTP call
answered with the document `"mp"`, identity forcing succeeding. -/
def okOracle : Oracle :=
  ⟨["http://sv"], 0, fun _ => .ok "mp", fun _ uid => .ok ("forced-" ++ uid)⟩

/-- An oracle with an empty service registry and failing transports. -/
def failOracle : Oracle :=
  ⟨[], 0, fun _ => .error .httpError, fun _ _ => .error .parseError⟩

/-- The agent-properties attachment of the concrete examples. -/
def propAttachment : Attachment :=
  ⟨some "org.opencastproject.capture.agent.properties", some "text/plain",
   "org.opencastproject.workflow.definition=fast\norg.opencastproject.workflow.config.foo=bar"⟩

/-- A qualifying Dublin Core catalog attachment. -/
def dcAttachment : Attachment :=
  ⟨some "episode.xml", some "application/xml",
   "<dublincore xmlns=\"http://www.opencastproject.org/xsd/1.0/dublincore/\"/>"⟩

/-- An event with no attachments at all (in particular, no agent-properties
attachment) and no tracks. -/
def eventNoProps : Event := ⟨"uid-1", [], [], "/recordings/uid-1"⟩

/-- An event with one qualifying Dublin Core catalog and no agent-properties
attachment. -/
def eventDcOnly : Event := ⟨"uid-2", [dcAttachment], [], "/recordings/uid-2"⟩

/-- A fully-populated event: agent properties, one Dublin Core catalog, one
track whose path contains a non-ASCII character. -/
def eventFull : Event :=
  ⟨"uid-3", [propAttachment, dcAttachment],
   [⟨"presenter/source", "/rec/träck.mp4"⟩], "/recordings/uid-3"⟩

/-- A loop oracle that always finds an eligible event. -/
def loopOracleEv : LoopOracle :=
  ⟨fun _ => some eventFull, fun _ => 3, fun _ => okOracle⟩

/-- A sample parsed mediapackage document. -/
def xmlSample : XmlElem := ⟨"mediapackage", [("id", "old"), ("start", "t0")], "<media/>"⟩

/-- C1 (code bug): on an event with no agent-properties attachment, with a
service available and every remote call succeeding, `ingest` does not
complete: reading `workflow_def` at the submit step raises
`UnboundLocalError`, and the final `/ingest` call is never made (the only
HTTP request of the run is `createMediaPackage`).  The spec's "this is
valid, not an error" matches the intent visible in the `if workflow_def:`
guard, but the locals are only bound inside the attachment loop. -/
theorem ingest_missing_agent_properties_raises :
    (ingest cfgDefault okOracle eventNoProps false).2 = .error .unboundLocal
    ∧ httpUrls (ingest cfgDefault okOracle eventNoProps false).1
        = ["http://sv/createMediaPackage"] := by decide

/-- C2: `safe_start_ingest` absorbs every failure of `ingest`: whenever the
run raises, the emitted effects are exactly the run's effects followed by
the `upload_error` recording state, the `FAILED_UPLOADING` event status and
the immediate `IDLE` own-status write — and nothing propagates, so the
control loop emits its watchdog heartbeat exactly once per iteration for
every oracle, i.e. regardless of upload outcomes. -/
theorem safe_start_ingest_absorbs_failures :
    ∀ (cfg : Config) (o : Oracle) (e : Event),
      (∀ err, (ingest cfg o e false).2 = .error err →
        safe_start_ingest cfg o e
          = (ingest cfg o e false).1
            ++ [Effect.recordingState e.uid "upload_error",
                Effect.updateEventStatus e.uid .failed_uploading,
                Effect.setServiceStatusImmediate .ingest .idle])
      ∧ (∀ (lo : LoopOracle) (fuel : Nat),
          countWatchdog (control_loop cfg lo fuel) = fuel) := by
  intro cfg o e
  constructor
  · intro err herr
    cases hing : ingest cfg o e false with
    | mk tr res =>
      have hres : res = Except.error err := by
        have h2 := herr; rw [hing] at h2; exact h2
      subst hres
      unfold safe_start_ingest
      rw [hing]
  · intro lo fuel
    exact countWatchdog_control_loop cfg lo fuel

/-- C2 witness: with an empty service registry the upload raises
(`randrange(0, 0)`), `safe_start_ingest` converts it into the recovery
effects, and a 2-iteration control loop still heartbeats twice. -/
theorem safe_start_ingest_absorbs_failures_witness :
    safe_start_ingest cfgDefault failOracle eventNoProps
      = (ingest cfgDefault failOracle eventNoProps false).1
        ++ [Effect.recordingState eventNoProps.uid "upload_error",
            Effect.updateEventStatus eventNoProps.uid .failed_uploading,
            Effect.setServiceStatusImmediate .ingest .idle]
    ∧ countWatchdog (control_loop cfgDefault loopOracleEv 2) = 2 :=
  ⟨(safe_start_ingest_absorbs_failures cfgDefault failOracle eventNoProps).1
      .emptyRange (by decide),
   (safe_start_ingest_absorbs_failures cfgDefault failOracle eventNoProps).2
      loopOracleEv 2⟩

/-- C3 counterexample: a line that starts with the workflow-config namespace
prefix but contains no `=` makes `get_config_params` raise `ValueError`
(the `key, val = prop.split('=', 1)` unpacking fails), so the claim "never
raises" is false as stated. -/
theorem get_config_params_missing_eq_raises :
    get_config_params "org.opencastproject.workflow.config" = .error .valueError := by
  decide

/-- C3 (amended): `get_config_params` returns without raising exactly when
every line starting with the workflow-config namespace prefix contains an
`=`; a config-prefix line without `=` raises `ValueError` (definition-prefix
lines and unrecognised lines never raise). -/
theorem get_config_params_total_iff :
    ∀ properties : String,
      (get_config_params properties).isOk = true
        ↔ ∀ l ∈ pyLines properties, isCfgLine l = true → (pySplitEq1 l).length = 2 :=
  fun properties => gcpGo_ok_iff (pyLines properties) "" []

/-- C5 counterexample: on an input whose config-prefix line has no `=`,
`get_config_params` raises instead of returning a pair, so the universally
quantified claim is false as stated. -/
theorem get_config_params_not_total :
    get_config_params
      "org.opencastproject.workflow.config.a\norg.opencastproject.workflow.definition=fast"
      = .error .valueError := by decide

/-- C5 (amended): for every properties text whose config-prefix lines each
contain an `=`, `get_config_params` returns `(wdef, params)` where `wdef`
is everything after the first `=` of the last definition-prefix line (the
whole line when it has no `=`, the empty string when there is no such
line), and `params` has one pair per config-prefix line in original line
order, each key reduced to its last dot-segment, duplicates kept. -/
theorem get_config_params_spec :
    ∀ properties : String,
      (∀ l ∈ pyLines properties, isCfgLine l = true → (pySplitEq1 l).length = 2) →
      get_config_params properties
        = .ok (lastDefTake "" (pyLines properties), cfgParams (pyLines properties)) := by
  intro properties h
  have hg := gcpGo_wellformed (pyLines properties) "" [] h
  simpa [get_config_params] using hg

/-- C5 witness: the spec's own example input evaluates to
`("fast", [("foo", "bar")])`. -/
theorem get_config_params_spec_witness :
    get_config_params
      "org.opencastproject.workflow.definition=fast\norg.opencastproject.workflow.config.foo=bar"
      = .ok ("fast", [("foo", "bar")]) := by
  have h := get_config_params_spec
    "org.opencastproject.workflow.definition=fast\norg.opencastproject.workflow.config.foo=bar"
    (by decide)
  rw [h]
  decide

/-- C4 counterexample: an event with exactly one qualifying DC catalog and
no tracks, catalog upload enabled, every remote call succeeding — but with
no agent-properties attachment.  The run performs the create call and the
one `addDCCatalog` call and then raises `UnboundLocalError`; the final
`/ingest` call never happens, so "… then 1 ingest call" fails for this
event. -/
theorem ingest_counts_fail_without_agent_properties :
    cfgDefault.upload_catalogs = true
    ∧ (eventDcOnly.attach.filter (qualifies cfgDefault)).length = 1
    ∧ eventDcOnly.tracks.length = 0
    ∧ httpUrls (ingest cfgDefault okOracle eventDcOnly false).1
        = ["http://sv/createMediaPackage", "http://sv/addDCCatalog"]
    ∧ (ingest cfgDefault okOracle eventDcOnly false).2 = .error .unboundLocal := by
  decide

/-- C4 (amended): for every event that also carries an agent-properties
attachment (all its parses succeeding) and with every remote call
succeeding, one run of `ingest` emits exactly the create call, then one
`addDCCatalog` call per qualifying catalog in attachment order, then one
`addTrack` call per track in track order, then the one `/ingest` call —
and each call's `mediaPackage` field is the response of the immediately
preceding call (`dcCalls`/`trackCalls` thread `resp n` into call `n + 1`).
The URL projection makes the `1 + M + T + 1` count explicit. -/
theorem ingest_call_sequence_ok :
    ∀ (cfg : Config) (o : Oracle) (e : Event)
      (wfv : String × List (String × String)),
      cfg.upload_catalogs = true →
      o.services ≠ [] →
      (∀ k, o.http k = .ok (oracleResp o k)) →
      (∀ a ∈ e.attach, isAgentProps a = true → (get_config_params a.data).isOk = true) →
      wfFinal e.attach = some wfv →
      ingest cfg o e false
        = (preEffects e
            ++ [Effect.http (selectedUrl o ++ "/createMediaPackage") []]
            ++ dcCalls (selectedUrl o) (oracleResp o)
                 (e.attach.filter (qualifies cfg)) (oracleResp o 0) 1
            ++ trackCalls (selectedUrl o) (oracleResp o) e.tracks
                 (chainEnd (oracleResp o) (oracleResp o 0) 1
                   (e.attach.filter (qualifies cfg)).length)
                 (1 + (e.attach.filter (qualifies cfg)).length)
            ++ [Effect.http (selectedUrl o ++ "/ingest")
                  (submitFields
                    (chainEnd (oracleResp o)
                      (chainEnd (oracleResp o) (oracleResp o 0) 1
                        (e.attach.filter (qualifies cfg)).length)
                      (1 + (e.attach.filter (qualifies cfg)).length)
                      e.tracks.length)
                    wfv e.uid)]
            ++ postEffects cfg e,
           .ok ())
        ∧ httpUrls (ingest cfg o e false).1
          = (selectedUrl o ++ "/createMediaPackage")
              :: (List.replicate (e.attach.filter (qualifies cfg)).length
                    (selectedUrl o ++ "/addDCCatalog")
                  ++ List.replicate e.tracks.length (selectedUrl o ++ "/addTrack")
                  ++ [selectedUrl o ++ "/ingest"]) := by
  intro cfg o e wfv hcat hsvc hh hp hw
  have hbase := ingest_all_ok cfg o e false (oracleResp o 0) wfv hsvc hh rfl hp hw
  refine ⟨hbase, ?_⟩
  rw [hbase]
  simp [httpUrls_append, httpUrls_pre, httpUrls_post, httpUrls_dcCalls,
    httpUrls_trackCalls, httpUrls_cons_http, httpUrls_nil]

/-- C4 witness: the amended sequence theorem evaluated on the
fully-populated event (one catalog, one track, agent properties present). -/
theorem ingest_call_sequence_ok_witness :
    ingest cfgDefault okOracle eventFull false
      = (preEffects eventFull
          ++ [Effect.http (selectedUrl okOracle ++ "/createMediaPackage") []]
          ++ dcCalls (selectedUrl okOracle) (oracleResp okOracle)
               (eventFull.attach.filter (qualifies cfgDefault)) (oracleResp okOracle 0) 1
          ++ trackCalls (selectedUrl okOracle) (oracleResp okOracle) eventFull.tracks
               (chainEnd (oracleResp okOracle) (oracleResp okOracle 0) 1
                 (eventFull.attach.filter (qualifies cfgDefault)).length)
               (1 + (eventFull.attach.filter (qualifies cfgDefault)).length)
          ++ [Effect.http (selectedUrl okOracle ++ "/ingest")
                (submitFields
                  (chainEnd (oracleResp okOracle)
                    (chainEnd (oracleResp okOracle) (oracleResp okOracle 0) 1
                      (eventFull.attach.filter (qualifies cfgDefault)).length)
                    (1 + (eventFull.attach.filter (qualifies cfgDefault)).length)
                    eventFull.tracks.length)
                  ("fast", [("foo", "bar")]) eventFull.uid)]
          ++ postEffects cfgDefault eventFull,
         .ok ())
    ∧ httpUrls (ingest cfgDefault okOracle eventFull false).1
      = (selectedUrl okOracle ++ "/createMediaPackage")
          :: (List.replicate (eventFull.attach.filter (qualifies cfgDefault)).length
                (selectedUrl okOracle ++ "/addDCCatalog")
              ++ List.replicate eventFull.tracks.length
                   (selectedUrl okOracle ++ "/addTrack")
              ++ [selectedUrl okOracle ++ "/ingest"]) :=
  ingest_call_sequence_ok cfgDefault okOracle eventFull ("fast", [("foo", "bar")])
    (by decide) (by decide) (fun k => rfl) (by decide) (by decide)

/-- C6: the event's recording directory is removed only when
`delete_after_upload` is set and the run returned successfully (in
particular never on a failure path), and on a successful run the trace
splits as "everything before the `/ingest` submit call — which contains no
removal — then the submit call, then the post effects", so the removal
happens strictly after the submit call returned; `safe_start_ingest`
likewise never removes a directory when the upload raised. -/
theorem rmtree_only_after_successful_submit :
    ∀ (cfg : Config) (o : Oracle) (e : Event) (fu : Bool) (d : String),
      (Effect.rmtree d ∈ (ingest cfg o e fu).1 →
        cfg.delete_after_upload = true ∧ (ingest cfg o e fu).2 = .ok ()
          ∧ d = e.directory)
      ∧ ((ingest cfg o e fu).2 = .ok () →
          ∃ t1 fs, (ingest cfg o e fu).1
              = t1 ++ Effect.http (selectedUrl o ++ "/ingest") fs
                  :: postEffects cfg e
            ∧ Effect.rmtree d ∉ t1)
      ∧ (∀ err, (ingest cfg o e false).2 = .error err →
          Effect.rmtree d ∉ safe_start_ingest cfg o e) := by
  intro cfg o e fu d
  refine ⟨?_, ?_, ?_⟩
  · intro hmem
    rcases ingest_effect_cases hmem with
      h | h | ⟨m, a, _, h⟩ | ⟨m, t, _, h⟩ | ⟨mp, wf, h⟩ | ⟨hok, h⟩
    · exact absurd h rmtree_notin_pre
    · simp at h
    · simp at h
    · simp at h
    · simp at h
    · obtain ⟨hdel, hd⟩ := rmtree_mem_post h
      exact ⟨hdel, hok, hd⟩
  · intro hok
    obtain ⟨t1, fs, heq, hno⟩ := ingest_ok_split hok
    exact ⟨t1, fs, heq, hno d⟩
  · intro err herr hmem
    unfold safe_start_ingest at hmem
    cases hing : ingest cfg o e false with
    | mk tr res =>
      have htr : tr = (ingest cfg o e false).1 := by rw [hing]
      have hres : res = Except.error err := by
        have h2 := herr; rw [hing] at h2; exact h2
      subst hres
      rw [hing] at hmem
      rcases List.mem_append.mp hmem with h | h
      · rcases ingest_effect_cases
            (show Effect.rmtree d ∈ (ingest cfg o e false).1 from htr ▸ h) with
          h' | h' | ⟨m, a, _, h'⟩ | ⟨m, t, _, h'⟩ | ⟨mp, wf, h'⟩ | ⟨hok, _⟩
        · exact rmtree_notin_pre h'
        · simp at h'
        · simp at h'
        · simp at h'
        · simp at h'
        · rw [hing] at hok; simp at hok
      · simp at h

/-- C6 witness: on the successful concrete run the recording directory is
in fact removed, so the first conjunct fires: deletion is enabled, the run
returned, and the removed directory is the event's. -/
theorem rmtree_only_after_successful_submit_witness :
    cfgDefault.delete_after_upload = true
    ∧ (ingest cfgDefault okOracle eventFull false).2 = .ok ()
    ∧ "/recordings/uid-3" = eventFull.directory :=
  (rmtree_only_after_successful_submit cfgDefault okOracle eventFull false
    "/recordings/uid-3").1 (by decide)

/-- C7: when the set of known ingest endpoints is empty, selection fails —
`random.randrange(0, 0)` raises the empty-range `ValueError`, the spec's
`NoServiceAvailable` — before any remote call is made: the run's trace is
exactly the four pre-selection status effects, which contain no HTTP
request. -/
theorem empty_service_list_fails :
    ∀ (cfg : Config) (o : Oracle) (e : Event) (fu : Bool),
      o.services = [] →
      ingest cfg o e fu = (preEffects e, .error .emptyRange)
      ∧ httpUrls (preEffects e) = [] := by
  intro cfg o e fu h
  constructor
  · have hsel : selectService o = .error .emptyRange := by simp [selectService, h]
    simp [ingest, hsel]
  · exact httpUrls_pre e

/-- C7 witness: the empty-registry oracle makes the concrete run fail with
the empty-range error and an HTTP-free trace. -/
theorem empty_service_list_fails_witness :
    ingest cfgDefault failOracle eventNoProps false
      = (preEffects eventNoProps, .error .emptyRange)
    ∧ httpUrls (preEffects eventNoProps) = [] :=
  empty_service_list_fails cfgDefault failOracle eventNoProps false rfl

/-- C8: the auto-ingest flag is derived from configuration alone, once,
before the iterations — `autoMode cfg = (delay_max ≥ delay_min)` — and
whenever `delay_max < delay_min` the whole loop trace is the three start
effects, then per iteration exactly one watchdog heartbeat and the fixed
poll sleep (no database query, no jitter sleep, no upload effects,
whatever events the oracle would offer), then the `STOPPED` status. -/
theorem auto_ingest_disabled_loop :
    ∀ (cfg : Config) (lo : LoopOracle) (fuel : Nat),
      cfg.delay_max < cfg.delay_min →
      autoMode cfg = false
      ∧ control_loop cfg lo fuel
        = [Effect.setServiceStatusImmediate .ingest .idle, .notify "READY=1",
           .notify "STATUS=Running"]
          ++ (List.replicate fuel [Effect.notify "WATCHDOG=1", Effect.sleepTick]).flatten
          ++ [Effect.setServiceStatus .ingest .stopped] := by
  intro cfg lo fuel h
  have hoff : autoMode cfg = false := by
    simp [autoMode]
    omega
  refine ⟨hoff, ?_⟩
  unfold control_loop
  rw [loop_run_auto_off hoff lo fuel 0]

/-- C8 witness: with `delay_min = 10 > delay_max = 5` and an oracle that
always offers an eligible event, a 2-iteration loop still emits only
heartbeats and poll sleeps. -/
theorem auto_ingest_disabled_loop_witness :
    autoMode ⟨true, true, 10, 5⟩ = false
    ∧ control_loop ⟨true, true, 10, 5⟩ loopOracleEv 2
      = [Effect.setServiceStatusImmediate .ingest .idle, .notify "READY=1",
         .notify "STATUS=Running"]
        ++ (List.replicate 2 [Effect.notify "WATCHDOG=1", Effect.sleepTick]).flatten
        ++ [Effect.setServiceStatus .ingest .stopped] :=
  auto_ingest_disabled_loop ⟨true, true, 10, 5⟩ loopOracleEv 2 (by decide)

/-- C9: with identity forcing enabled (and the local parse succeeding) the
run performs exactly the same remote calls, at the same URLs, as the
unforced run — the forcing step adds no remote call; and structurally, the
forced document's root `id` attribute equals the event uid while every
other attribute, the tag and the remaining content are unchanged
(re-serialisation of the parsed tree is the XML library's business and is
kept outside the model). -/
theorem force_uid_is_local_transform :
    ∀ (cfg : Config) (o : Oracle) (e : Event) (d : String)
      (wfv : String × List (String × String)),
      o.services ≠ [] →
      (∀ k, o.http k = .ok (oracleResp o k)) →
      o.forceParse (oracleResp o 0) e.uid = .ok d →
      (∀ a ∈ e.attach, isAgentProps a = true → (get_config_params a.data).isOk = true) →
      wfFinal e.attach = some wfv →
      httpUrls (ingest cfg o e true).1 = httpUrls (ingest cfg o e false).1
      ∧ (∀ (doc : XmlElem) (uid : String),
          getAttr (forceUidDoc doc uid).attrib "id" = some uid
          ∧ (∀ k, k ≠ "id" →
              getAttr (forceUidDoc doc uid).attrib k = getAttr doc.attrib k)
          ∧ (forceUidDoc doc uid).tag = doc.tag
          ∧ (forceUidDoc doc uid).body = doc.body) := by
  intro cfg o e d wfv hsvc hh hfp hp hw
  constructor
  · have htrue := ingest_all_ok cfg o e true d wfv
      hsvc hh (by simpa using hfp) hp hw
    have hfalse := ingest_all_ok cfg o e false (oracleResp o 0) wfv
      hsvc hh rfl hp hw
    rw [htrue, hfalse]
    simp [httpUrls_append, httpUrls_pre, httpUrls_post, httpUrls_dcCalls,
      httpUrls_trackCalls, httpUrls_cons_http, httpUrls_nil]
  · intro doc uid
    exact ⟨getAttr_setAttr_self doc.attrib "id" uid,
      fun k hk => getAttr_setAttr_other doc.attrib "id" uid k hk, rfl, rfl⟩

/-- C9 witness: on the concrete event the forced and unforced runs hit the
same URL sequence, and forcing the sample document sets its root id. -/
theorem force_uid_is_local_transform_witness :
    httpUrls (ingest cfgDefault okOracle eventFull true).1
      = httpUrls (ingest cfgDefault okOracle eventFull false).1
    ∧ getAttr (forceUidDoc xmlSample "uid-3").attrib "id" = some "uid-3" :=
  have h := force_uid_is_local_transform cfgDefault okOracle eventFull
    "forced-uid-3" ("fast", [("foo", "bar")])
    (by decide) (fun k => rfl) (by decide) (by decide) (by decide)
  ⟨h.1, (h.2 xmlSample "uid-3").1⟩

/-- C10: every file-upload field sent by any run carries the
ASCII-re-encoded (`encode('ascii', 'ignore')`) path of one of the event's
tracks; the `workflowInstanceId` field built from a truthy uid carries the
ASCII-re-encoded uid; and the re-encoding — total, never raising — drops
every non-ASCII character, so the transmitted value can differ from the
stored one. -/
theorem ascii_reencoding_in_remote_calls :
    ∀ (cfg : Config) (o : Oracle) (e : Event) (fu : Bool),
      (∀ u fs, Effect.http u fs ∈ (ingest cfg o e fu).1 →
        ∀ nm p, FormField.file nm p ∈ fs →
          ∃ t, t ∈ e.tracks ∧ p = asciiIgnore t.path)
      ∧ (∀ (mp : String) (wf : String × List (String × String)),
          e.uid ≠ "" →
          FormField.str "workflowInstanceId" (asciiIgnore e.uid)
            ∈ submitFields mp wf e.uid)
      ∧ asciiIgnore "träck-ü" = "trck-"
      ∧ "träck-ü" ≠ "trck-" := by
  intro cfg o e fu
  refine ⟨?_, fun mp wf h => instanceId_mem_submitFields h, by decide, by decide⟩
  intro u fs hmem nm p hf
  rcases ingest_effect_cases hmem with
    h | h | ⟨m, a, ha, h⟩ | ⟨m, t, ht, h⟩ | ⟨mp, wf, h⟩ | ⟨_, h⟩
  · exact absurd h not_http_mem_pre
  · simp at h
    obtain ⟨hu, hfs⟩ := h
    subst hfs
    simp at hf
  · simp at h
    obtain ⟨hu, hfs⟩ := h
    subst hfs
    exact absurd hf file_notin_dcFields
  · simp at h
    obtain ⟨hu, hfs⟩ := h
    subst hfs
    simp [trackFields] at hf
    exact ⟨t, ht, hf.2⟩
  · simp at h
    obtain ⟨hu, hfs⟩ := h
    subst hfs
    exact absurd hf file_notin_submitFields
  · exact absurd h not_http_mem_post

/-- C10 witness: the concrete run's `addTrack` call uploads
`"/rec/trck.mp4"` — the stored path `"/rec/träck.mp4"` with its non-ASCII
character dropped — and the instance-id field of a submit form built from
`"uid-3"` carries its (unchanged) re-encoding. -/
theorem ascii_reencoding_in_remote_calls_witness :
    (∃ t, t ∈ eventFull.tracks ∧ "/rec/trck.mp4" = asciiIgnore t.path)
    ∧ FormField.str "workflowInstanceId" (asciiIgnore "uid-3")
        ∈ submitFields "mp" ("fast", [("foo", "bar")]) "uid-3"
    ∧ asciiIgnore "träck-ü" = "trck-"
    ∧ "träck-ü" ≠ "trck-" :=
  have h := ascii_reencoding_in_remote_calls cfgDefault okOracle eventFull false
  ⟨h.1 "http://sv/addTrack"
      (trackFields "mp" ⟨"presenter/source", "/rec/träck.mp4"⟩)
      (by decide) "BODY1" "/rec/trck.mp4" (by decide),
   h.2.1 "mp" ("fast", [("foo", "bar")]) (by decide),
   h.2.2.1, h.2.2.2⟩
